import Mathlib

set_option maxRecDepth 20000

/-!
Shallow embedding of the Jsonnet lexer from `src/pygments/lexers/jsonnet.py`.

The rule tables (`comments`, `rvalues`, `string_rules`, `quoted_field_name`,
`JsonnetLexer.tokens`) are translated rule by rule from the source file.  The
generic `RegexLexer` scanning engine is part of this repository but not under
`src/`; it is modelled from the specification (section 4.1): first matching
rule of the top-of-stack state wins, the matched span is emitted as one token,
the stack action is applied, and on no match one one-character Error token is
emitted and the cursor advances by one.

Each regular expression of the source is hand-translated into an executable
prefix matcher `List Char → Option Nat` returning the number of characters
consumed (Python `re.match` semantics, leftmost-greedy with backtracking).
-/

/-- Token categories used by the lexer (pygments token types appearing in the
source file: `Comment.Single`, `Comment`, `String.Doc`, `Keyword`, `Operator`,
`Punctuation`, `String`, `String.Escape`, `Number.Float`, `Name.Variable`,
`Name.Function`, `Name.Builtin`, `Whitespace`, and the engine's `Error`). -/
inductive Cat where
  | commentSingle
  | comment
  | stringDoc
  | keyword
  | operator
  | punctuation
  | string
  | stringEscape
  | numberFloat
  | nameVariable
  | nameFunction
  | nameBuiltin
  | whitespace
  | error
  deriving DecidableEq, Repr

/-- The state names of `JsonnetLexer.tokens` (the source's `assert` state is
called `assert_state` here). -/
inductive StateName where
  | root
  | singlestring
  | doublestring
  | array
  | local_name
  | local_value
  | assert_state
  | function_params
  | function_args
  | object
  | field_name
  | double_field_name
  | single_field_name
  | field_name_expr
  | function_param_default
  | field_separator
  | field_value
  | object_assert
  | object_local_name
  | object_local_value
  deriving DecidableEq, Repr

/-- An emitted token: category plus the exact matched span. -/
structure Tok where
  cat : Cat
  text : List Char
  deriving DecidableEq, Repr

/-- A stack action: pop `pops` entries, then push the names of `pushes` in
order (pygments `#pop`, `#pop:2`, state-name pushes and tuples thereof). -/
structure Act where
  pops : Nat
  pushes : List StateName
  deriving DecidableEq, Repr

/-- One lexer rule: anchored pattern matcher, token category, stack action. -/
structure Rule where
  pat : List Char → Option Nat
  cat : Cat
  act : Act

/-- `jsonnet_token_chars = [_A-Za-z0-9]` (also the ASCII word characters used
by the regex `\b` and `\w`). -/
def jsonnet_token_char (c : Char) : Bool := c = '_' || c.isAlpha || c.isDigit

/-- First character of `jsonnet_token = [_A-Za-z][_A-Za-z0-9]*`. -/
def jsonnet_token_start (c : Char) : Bool := c = '_' || c.isAlpha

/-- Python `\s` (ASCII part): space, tab, newline, carriage return, form feed,
vertical tab. -/
def pySpace (c : Char) : Bool :=
  c = ' ' || c = '\t' || c = '\n' || c = '\r' || c = '\x0c' || c = '\x0b'

/-- Is the first character of the list a `jsonnet_token_char`?  (`false` at
end of input, matching the semantics of `(?![_A-Za-z0-9])` and `\b`.) -/
def headTokenChar : List Char → Bool
  | [] => false
  | c :: _ => jsonnet_token_char c

/-- Matcher for a literal string: consumes exactly that prefix. -/
def matchLit : List Char → List Char → Option Nat
  | [], _ => some 0
  | _ :: _, [] => none
  | c :: cs, d :: ds => if c = d then (matchLit cs ds).map (· + 1) else none

/-- Matcher for a literal word followed by a word-boundary-style guard, e.g.
`local\b`, `assert\b`, and each alternative of `(keywords)(?![_A-Za-z0-9])`. -/
def matchWordGuard (w : List Char) (s : List Char) : Option Nat :=
  match matchLit w s with
  | some k => if headTokenChar (s.drop k) then none else some k
  | none => none

/-- Matcher for a guarded alternation of words: first word of the list that is
a prefix of the input and not followed by a token character. -/
def matchWords : List (List Char) → List Char → Option Nat
  | [], _ => none
  | w :: ws, s =>
    match matchWordGuard w s with
    | some k => some k
    | none => matchWords ws s

/-- The keyword list of the source (`words([...]).get()`). -/
def kwWords : List (List Char) :=
  ["assert", "else", "error", "false", "for", "if", "import", "importstr",
   "in", "null", "tailstrict", "then", "self", "super", "true"].map String.data

/-- Matcher for `({keywords})(?![_A-Za-z0-9])`. -/
def matchKeywords (s : List Char) : Option Nat := matchWords kwWords s

/-- Matcher for a single given character. -/
def matchChar (c : Char) (s : List Char) : Option Nat :=
  match s with
  | d :: _ => if d = c then some 1 else none
  | [] => none

/-- Matcher for a one-character class (a set of characters). -/
def matchCharSet (cs : List Char) (s : List Char) : Option Nat :=
  match s with
  | d :: _ => if d ∈ cs then some 1 else none
  | [] => none

/-- Characters of the operator class `[!$~+\-&|^=<>*/%]`. -/
def opChars : List Char :=
  ['!', '$', '~', '+', '-', '&', '|', '^', '=', '<', '>', '*', '/', '%']

/-- Characters of the punctuation class `[\.()]`. -/
def dotParens : List Char := ['.', '(', ')']

/-- Number of leading `jsonnet_token_char`s. -/
def countTokenChars : List Char → Nat
  | [] => 0
  | c :: rest => if jsonnet_token_char c then countTokenChars rest + 1 else 0

/-- Matcher for `jsonnet_token = [_A-Za-z][_A-Za-z0-9]*`. -/
def matchToken (s : List Char) : Option Nat :=
  match s with
  | c :: rest => if jsonnet_token_start c then some (countTokenChars rest + 1) else none
  | [] => none

/-- Matcher for `jsonnet_function_token = jsonnet_token(?=\()`. -/
def matchFuncToken (s : List Char) : Option Nat :=
  match matchToken s with
  | some k => if (s.drop k).head? = some '(' then some k else none
  | none => none

/-- Matcher for `std\.` followed by `jsonnet_function_token`. -/
def matchStdFunc (s : List Char) : Option Nat :=
  match matchLit ('s' :: 't' :: 'd' :: '.' :: []) s with
  | some _ => (matchFuncToken (s.drop 4)).map (· + 4)
  | none => none

/-- Matcher for `function(?=\()`. -/
def matchFunctionLP (s : List Char) : Option Nat :=
  match matchLit ("function".data) s with
  | some k => if (s.drop k).head? = some '(' then some k else none
  | none => none

/-- Number of leading Python-whitespace characters. -/
def countSpace : List Char → Nat
  | [] => 0
  | c :: rest => if pySpace c then countSpace rest + 1 else 0

/-- Matcher for `\s+`. -/
def matchWs (s : List Char) : Option Nat :=
  match countSpace s with
  | 0 => none
  | n + 1 => some (n + 1)

/-- Number of leading ASCII digits. -/
def countDigits : List Char → Nat
  | [] => 0
  | c :: rest => if c.isDigit then countDigits rest + 1 else 0

/-- Matcher for `[0-9]+(.[0-9])?` (the unsigned part of the number rule).
Note the unescaped `.` in the source regex: the optional group accepts any
non-newline character followed by one digit. -/
def matchNumberBody (t : List Char) : Option Nat :=
  match countDigits t with
  | 0 => none
  | d + 1 =>
    match t.drop (d + 1) with
    | c :: e :: _ =>
      if c ≠ '\n' && e.isDigit then some (d + 3) else some (d + 1)
    | _ => some (d + 1)

/-- Matcher for `[+-]?[0-9]+(.[0-9])?`. -/
def matchNumber (s : List Char) : Option Nat :=
  match s with
  | c :: rest =>
    if c = '+' || c = '-' then (matchNumberBody rest).map (· + 1)
    else matchNumberBody s
  | [] => none

/-- Index of the first newline, if any. -/
def findNl : List Char → Option Nat
  | [] => none
  | c :: rest => if c = '\n' then some 0 else (findNl rest).map (· + 1)

/-- Matcher for `(//|#).*\n`: comment marker, rest of the line, and the
newline itself (fails if the input has no further newline). -/
def matchLineComment (s : List Char) : Option Nat :=
  match matchLit ('/' :: '/' :: []) s with
  | some _ => (findNl (s.drop 2)).map (fun j => j + 3)
  | none =>
    match s with
    | '#' :: rest => (findNl rest).map (fun j => j + 2)
    | _ => none

/-- Greedy-with-backtracking matcher for `([^/]|/(?!\*))*\*/`, the shared body
of the block-comment regexes: consumes through the last `*/` whose preceding
characters contain no `/` immediately followed by `*`. -/
def docBody : List Char → Option Nat
  | [] => none
  | c :: rest =>
    if c = '/' && rest.head? = some '*' then none
    else if c = '*' && rest.head? = some '/' then
      match docBody rest with
      | some k => some (k + 1)
      | none => some 2
    else (docBody rest).map (· + 1)

/-- Matcher for `/\*\*([^/]|/(?!\*))*\*/` (documentation comment). -/
def matchDocComment (s : List Char) : Option Nat :=
  match matchLit ('/' :: '*' :: '*' :: []) s with
  | some _ => (docBody (s.drop 3)).map (· + 3)
  | none => none

/-- Matcher for `/\*([^/]|/(?!\*))*\*/` (plain block comment). -/
def matchBlockComment (s : List Char) : Option Nat :=
  match matchLit ('/' :: '*' :: []) s with
  | some _ => (docBody (s.drop 2)).map (· + 2)
  | none => none

/-- Index of the last occurrence of `q` before the first newline (the greedy
match of `.*q`). -/
def lastQuoteInLine (q : Char) : List Char → Option Nat
  | [] => none
  | c :: rest =>
    if c = '\n' then none
    else
      match lastQuoteInLine q rest with
      | some j => some (j + 1)
      | none => if c = q then some 0 else none

/-- Matcher for the verbatim strings `@'.*'` and `@".*"`. -/
def matchAtString (q : Char) (s : List Char) : Option Nat :=
  match matchLit ('@' :: q :: []) s with
  | some _ => (lastQuoteInLine q (s.drop 2)).map (fun j => j + 3)
  | none => none

/-- Index of the last position where three consecutive `|` characters start. -/
def lastTriple : List Char → Option Nat
  | [] => none
  | c :: rest =>
    if c = '|' && rest.head? = some '|' && rest.tail.head? = some '|' then
      match lastTriple rest with
      | some j => some (j + 1)
      | none => some 0
    else (lastTriple rest).map (· + 1)

/-- Matcher for `(?s:\|\|\|.*\|\|\|)` (dot-all greedy). -/
def matchTripleBar (s : List Char) : Option Nat :=
  match matchLit ('|' :: '|' :: '|' :: []) s with
  | some _ => (lastTriple (s.drop 3)).map (fun j => j + 6)
  | none => none

/-- Matcher for `::?:?` (one to three colons, greedy). -/
def matchColons : List Char → Option Nat
  | ':' :: ':' :: ':' :: _ => some 3
  | ':' :: ':' :: _ => some 2
  | ':' :: _ => some 1
  | _ => none

/-- Matcher for `\+?::?:?` (the field separator `:`, `::`, `:::`, optionally
preceded by `+`). -/
def matchSepPunct (s : List Char) : Option Nat :=
  match s with
  | '+' :: t => (matchColons t).map (· + 1)
  | t => matchColons t

/-- Zero-width matcher for `(?=[_A-Za-z][_A-Za-z0-9]*)`. -/
def matchLookaheadToken (s : List Char) : Option Nat :=
  match s with
  | c :: _ => if jsonnet_token_start c then some 0 else none
  | [] => none

/-- Zero-width matcher for `(?==)`. -/
def matchLookaheadEq (s : List Char) : Option Nat :=
  match s with
  | '=' :: _ => some 0
  | _ => none

/-- Zero-width matcher for `(?=[,\)])`. -/
def matchLookaheadCommaRP (s : List Char) : Option Nat :=
  match s with
  | c :: _ => if c = ',' || c = ')' then some 0 else none
  | [] => none

/-- Matcher for `[^{quote}\\]` inside a quoted string body. -/
def matchStringChar (q : Char) (s : List Char) : Option Nat :=
  match s with
  | c :: _ => if c = q || c = '\\' then none else some 1
  | [] => none

/-- Matcher for `\\.` (backslash escape; `.` excludes the newline). -/
def matchEscape (s : List Char) : Option Nat :=
  match s with
  | '\\' :: d :: _ => if d = '\n' then none else some 2
  | _ => none

/-- Matcher for `([^{quote}\\]|\\.)*{quote}` used by `quoted_field_name`. -/
def quotedFieldRest (q : Char) : List Char → Option Nat
  | [] => none
  | c :: rest =>
    if c = q then some 1
    else if c = '\\' then
      match rest with
      | [] => none
      | d :: rest2 =>
        if d = '\n' then none else (quotedFieldRest q rest2).map (· + 2)
    else (quotedFieldRest q rest).map (· + 1)

/-- Matcher of the single rule of `quoted_field_name(quote_mark)`. -/
def matchQuotedFieldName (q : Char) (s : List Char) : Option Nat :=
  quotedFieldRest q s

/-- Shorthand stack actions. -/
def stay : Act := ⟨0, []⟩

/-- Push one state. -/
def push1 (s : StateName) : Act := ⟨0, [s]⟩

/-- Pop one state (`#pop`). -/
def pop1 : Act := ⟨1, []⟩

/-- The shared `comments` rule list of the source. -/
def comments : List Rule :=
  [⟨matchLineComment, .commentSingle, stay⟩,
   ⟨matchDocComment, .stringDoc, stay⟩,
   ⟨matchBlockComment, .comment, stay⟩]

/-- The shared `rvalues` rule list of the source (comments first, then the
string, number, operator, bracket, keyword, whitespace, function and
identifier rules, in the source's order). -/
def rvalues : List Rule :=
  comments ++
  [⟨matchAtString '\'', .string, stay⟩,
   ⟨matchAtString '"', .string, stay⟩,
   ⟨matchChar '\'', .string, push1 .singlestring⟩,
   ⟨matchChar '"', .string, push1 .doublestring⟩,
   ⟨matchTripleBar, .string, stay⟩,
   ⟨matchNumber, .numberFloat, stay⟩,
   ⟨matchCharSet opChars, .operator, stay⟩,
   ⟨matchChar '{', .punctuation, push1 .object⟩,
   ⟨matchChar '[', .punctuation, push1 .array⟩,
   ⟨matchWordGuard ("local".data), .keyword, push1 .local_name⟩,
   ⟨matchLit ("assert".data), .keyword, push1 .assert_state⟩,
   ⟨matchKeywords, .keyword, stay⟩,
   ⟨matchWs, .whitespace, stay⟩,
   ⟨matchFunctionLP, .keyword, push1 .function_params⟩,
   ⟨matchStdFunc, .nameBuiltin, push1 .function_args⟩,
   ⟨matchFuncToken, .nameFunction, push1 .function_args⟩,
   ⟨matchToken, .nameVariable, stay⟩,
   ⟨matchCharSet dotParens, .punctuation, stay⟩]

/-- The source's `string_rules(quote_mark)`. -/
def string_rules (q : Char) : List Rule :=
  [⟨matchStringChar q, .string, stay⟩,
   ⟨matchEscape, .stringEscape, stay⟩,
   ⟨matchChar q, .string, pop1⟩]

/-- The source's `quoted_field_name(quote_mark)`. -/
def quoted_field_name (q : Char) : List Rule :=
  [⟨matchQuotedFieldName q, .nameVariable, push1 .field_separator⟩]

/-- The full state table `JsonnetLexer.tokens`, state by state. -/
def rules : StateName → List Rule
  | .root => rvalues
  | .singlestring => string_rules '\''
  | .doublestring => string_rules '"'
  | .array =>
    [⟨matchChar ',', .punctuation, stay⟩,
     ⟨matchChar ']', .punctuation, pop1⟩] ++ rvalues
  | .local_name =>
    [⟨matchFuncToken, .nameFunction, push1 .function_params⟩,
     ⟨matchToken, .nameVariable, stay⟩,
     ⟨matchWs, .whitespace, stay⟩,
     ⟨matchLookaheadEq, .whitespace, ⟨1, [.local_value]⟩⟩]
  | .local_value =>
    [⟨matchChar '=', .operator, stay⟩,
     ⟨matchChar ';', .punctuation, pop1⟩] ++ rvalues
  | .assert_state =>
    [⟨matchChar ':', .punctuation, stay⟩,
     ⟨matchChar ';', .punctuation, pop1⟩] ++ rvalues
  | .function_params =>
    [⟨matchToken, .nameVariable, stay⟩,
     ⟨matchChar '(', .punctuation, stay⟩,
     ⟨matchChar ')', .punctuation, pop1⟩,
     ⟨matchChar ',', .punctuation, stay⟩,
     ⟨matchWs, .whitespace, stay⟩,
     ⟨matchChar '=', .operator, push1 .function_param_default⟩]
  | .function_args =>
    [⟨matchChar '(', .punctuation, stay⟩,
     ⟨matchChar ')', .punctuation, pop1⟩,
     ⟨matchChar ',', .punctuation, stay⟩,
     ⟨matchWs, .whitespace, stay⟩] ++ rvalues
  | .object =>
    [⟨matchWs, .whitespace, stay⟩,
     ⟨matchWordGuard ("local".data), .keyword, push1 .object_local_name⟩,
     ⟨matchWordGuard ("assert".data), .keyword, push1 .object_assert⟩,
     ⟨matchChar '[', .operator, push1 .field_name_expr⟩,
     ⟨matchLookaheadToken, .nameVariable, push1 .field_name⟩,
     ⟨matchChar '}', .punctuation, pop1⟩,
     ⟨matchChar '"', .nameVariable, push1 .double_field_name⟩,
     ⟨matchChar '\'', .nameVariable, push1 .single_field_name⟩] ++ comments
  | .field_name =>
    [⟨matchFuncToken, .nameFunction, ⟨0, [.field_separator, .function_params]⟩⟩,
     ⟨matchToken, .nameVariable, push1 .field_separator⟩]
  | .double_field_name => quoted_field_name '"'
  | .single_field_name => quoted_field_name '\''
  | .field_name_expr =>
    [⟨matchChar ']', .operator, push1 .field_separator⟩] ++ rvalues
  | .function_param_default =>
    [⟨matchLookaheadCommaRP, .whitespace, pop1⟩] ++ rvalues
  | .field_separator =>
    [⟨matchWs, .whitespace, stay⟩,
     ⟨matchSepPunct, .punctuation, ⟨2, [.field_value]⟩⟩] ++ comments
  | .field_value =>
    [⟨matchChar ',', .punctuation, pop1⟩,
     ⟨matchChar '}', .punctuation, ⟨2, []⟩⟩] ++ rvalues
  | .object_assert =>
    [⟨matchChar ':', .punctuation, stay⟩,
     ⟨matchChar ',', .punctuation, pop1⟩] ++ rvalues
  | .object_local_name =>
    [⟨matchToken, .nameVariable, ⟨1, [.object_local_value]⟩⟩,
     ⟨matchWs, .whitespace, stay⟩]
  | .object_local_value =>
    [⟨matchChar '=', .operator, stay⟩,
     ⟨matchChar ',', .punctuation, pop1⟩,
     ⟨matchChar '}', .punctuation, ⟨2, []⟩⟩] ++ rvalues

/-- Modelled from the spec: first rule of the list whose pattern matches the
current position wins (ordered first-match-wins dispatch, spec 4.1 step 2). -/
def findRule : List Rule → List Char → Option (Rule × Nat)
  | [], _ => none
  | r :: rs, s =>
    match r.pat s with
    | some k => some (r, k)
    | none => findRule rs s

/-- Modelled from the spec: pop `n` entries but never pop the bottom entry
(spec section 3: an attempt to pop past the bottom must not crash; this also
matches the guarded pops of the engine that is not under `src/`). -/
def popClamp (n : Nat) (st : List StateName) : List StateName :=
  st.drop (min n (st.length - 1))

/-- Push the given names in order (each becomes the new top). -/
def pushAll (names : List StateName) (st : List StateName) : List StateName :=
  names.foldl (fun acc s => s :: acc) st

/-- Apply a stack action: pop, then push (spec 4.1 step 4). -/
def applyAct (a : Act) (st : List StateName) : List StateName :=
  pushAll a.pushes (popClamp a.pops st)

/-- Modelled from the spec: the `RegexLexer` scanning engine (not under
`src/`; spec section 4.1).  The stack is kept top-first; a step matches the
rules of the top state against the remaining input, emits the matched span
with the rule's category, applies the stack action, and advances past the
match; when no rule matches it emits a one-character Error token and advances
by one.  `fuel` bounds the number of steps; it is proved below that the fuel
`2 * length + 1` always suffices. -/
def run : Nat → List Char → List StateName → Option (List Tok)
  | 0, _, _ => none
  | _ + 1, [], _ => some []
  | fuel + 1, c :: rest, stack =>
    match findRule (rules (stack.headD .root)) (c :: rest) with
    | some (r, k) =>
      (run fuel ((c :: rest).drop k) (applyAct r.act stack)).map
        (fun ts => Tok.mk r.cat ((c :: rest).take k) :: ts)
    | none => (run fuel rest stack).map (fun ts => Tok.mk .error [c] :: ts)

/-- The canonical fuel for an input. -/
def fuelFor (src : List Char) : Nat := 2 * src.length + 1

/-- Run the scanner from the initial stack `[root]`. -/
def rawTokenize (src : List Char) : Option (List Tok) :=
  run (fuelFor src) src [.root]

/-- The tokenizer: `tokenize(source)` of the spec.  (`rawTokenize` is proved
below to always return `some`.) -/
def tokenize (src : List Char) : List Tok := (rawTokenize src).getD []

/-- Concatenation of the text spans of a token list. -/
def joinTexts : List Tok → List Char
  | [] => []
  | t :: ts => t.text ++ joinTexts ts

/-- Strict pop: fails instead of clamping when the pop count reaches the
current stack depth (used to state that underflow is unreachable). -/
def popStrict (n : Nat) (st : List StateName) : Option (List StateName) :=
  if n < st.length then some (st.drop n) else none

/-- Strict action application. -/
def applyActStrict (a : Act) (st : List StateName) : Option (List StateName) :=
  (popStrict a.pops st).map (pushAll a.pushes)

/-- The engine with strict pops: identical to `run` except that it aborts with
`none` if a pop would reach or pass the bottom of the stack. -/
def runStrict : Nat → List Char → List StateName → Option (List Tok)
  | 0, _, _ => none
  | _ + 1, [], _ => some []
  | fuel + 1, c :: rest, stack =>
    match findRule (rules (stack.headD .root)) (c :: rest) with
    | some (r, k) =>
      match applyActStrict r.act stack with
      | some stack2 =>
        (runStrict fuel ((c :: rest).drop k) stack2).map
          (fun ts => Tok.mk r.cat ((c :: rest).take k) :: ts)
      | none => none
    | none => (runStrict fuel rest stack).map (fun ts => Tok.mk .error [c] :: ts)

/-- Is `s` one of the states whose rule list ends in the shared `rvalues`
fragment (the states from which the `rvalues` pushes can fire)? -/
def isRv : StateName → Bool
  | .root | .array | .local_value | .assert_state | .function_args
  | .field_name_expr | .function_param_default | .field_value
  | .object_assert | .object_local_value => true
  | _ => false

/-- Which state may sit directly below which on the stack.  `belowOK a b`
holds when `b` may be the entry directly below `a`; the relation is read off
the push/pop actions of the rule table. -/
def belowOK : StateName → StateName → Bool
  | .root, _ => false
  | .object, b => isRv b
  | .array, b => isRv b
  | .singlestring, b => isRv b
  | .doublestring, b => isRv b
  | .local_name, b => isRv b
  | .local_value, b => isRv b
  | .assert_state, b => isRv b
  | .function_args, b => isRv b
  | .function_params, b => isRv b || b = .field_separator || b = .local_name
  | .function_param_default, b => b = .function_params
  | .field_name, b => b = .object
  | .double_field_name, b => b = .object
  | .single_field_name, b => b = .object
  | .field_name_expr, b => b = .object
  | .field_value, b => b = .object
  | .object_assert, b => b = .object
  | .object_local_name, b => b = .object
  | .object_local_value, b => b = .object
  | .field_separator, b =>
    b = .field_name || b = .double_field_name || b = .single_field_name ||
    b = .field_name_expr

/-- Well-formed stacks: nonempty, each adjacent pair allowed by `belowOK`, and
`root` at the bottom.  Every stack reachable from the initial `[root]`
satisfies this. -/
def goodStack : List StateName → Bool
  | [] => false
  | [s] => s = .root
  | a :: b :: rest => belowOK a b && goodStack (b :: rest)

/-- A matcher that consumes at least one character whenever it matches. -/
def MinOne (f : List Char → Option Nat) : Prop :=
  ∀ s k, f s = some k → 1 ≤ k

/-- Does no rule of state `s` match at this input position? -/
def noMatch (s : StateName) (rest : List Char) : Bool :=
  (findRule (rules s) rest).isNone

/-- All keyword texts the lexer can emit: the `words([...])` list plus the
texts of the dedicated `local` and `function` keyword rules. -/
def allKw : List (List Char) := kwWords ++ ["local".data, "function".data]

/-- Boundary property of one token given the input remaining at its emission:
if the token is a Keyword then its text is a reserved word, and (except for
tokens of the unguarded `assert` rule) it is not immediately followed by an
identifier character. -/
def KwOK (t : Tok) (rest : List Char) : Prop :=
  t.cat = .keyword →
    t.text ∈ allKw ∧
      (t.text = "assert".data ∨ headTokenChar (rest.drop t.text.length) = false)

/-- `KwOK` for every token of a list, threading the remaining input. -/
def TokensOK : List Char → List Tok → Prop
  | _, [] => True
  | rest, t :: ts => KwOK t rest ∧ TokensOK (rest.drop t.text.length) ts

/-- Follows the claim's words (claim C4 as stated): every Keyword token
exactly matches a reserved word and is never immediately followed by another
identifier character. -/
def kwClaimOK : List Char → List Tok → Bool
  | _, [] => true
  | rest, t :: ts =>
    (if t.cat = .keyword then
       decide (t.text ∈ allKw) && !headTokenChar (rest.drop t.text.length)
     else true) &&
    kwClaimOK (rest.drop t.text.length) ts

/-- Follows the claim's words (claim C4 as stated), applied to a whole scan. -/
def specKeywordClaim (src : List Char) : Bool := kwClaimOK src (tokenize src)

/-- Follows the claim's words (claim C6): optional leading sign, one or more
digits, optionally a literal `.` character followed by exactly one digit. -/
def specNumberShape (s : List Char) : Bool :=
  let t := match s.head? with
    | some c => if c = '+' || c = '-' then s.tail else s
    | none => s
  let ds := t.takeWhile Char.isDigit
  let r := t.dropWhile Char.isDigit
  decide (1 ≤ ds.length) &&
    match r with
    | [] => true
    | ['.', c] => c.isDigit
    | _ => false

/-- Input of claim C3. -/
def c3input : List Char := "\x7ba: 1, b:: 2\x7d".data

/-- The token sequence claim C3 asserts (no zero-width tokens). -/
def c3claimed : List Tok :=
  [⟨.punctuation, ['{']⟩, ⟨.nameVariable, ['a']⟩, ⟨.punctuation, [':']⟩,
   ⟨.whitespace, [' ']⟩, ⟨.numberFloat, ['1']⟩, ⟨.punctuation, [',']⟩,
   ⟨.whitespace, [' ']⟩, ⟨.nameVariable, ['b']⟩, ⟨.punctuation, [':', ':']⟩,
   ⟨.whitespace, [' ']⟩, ⟨.numberFloat, ['2']⟩, ⟨.punctuation, ['}']⟩]

/-- The token sequence the lexer actually produces on `c3input` (with the two
zero-width Name.Variable tokens emitted on entering each field name). -/
def c3actual : List Tok :=
  [⟨.punctuation, ['{']⟩, ⟨.nameVariable, []⟩, ⟨.nameVariable, ['a']⟩,
   ⟨.punctuation, [':']⟩, ⟨.whitespace, [' ']⟩, ⟨.numberFloat, ['1']⟩,
   ⟨.punctuation, [',']⟩, ⟨.whitespace, [' ']⟩, ⟨.nameVariable, []⟩,
   ⟨.nameVariable, ['b']⟩, ⟨.punctuation, [':', ':']⟩, ⟨.whitespace, [' ']⟩,
   ⟨.numberFloat, ['2']⟩, ⟨.punctuation, ['}']⟩]

/-- Input of claim C2's worst-case example: an object with an unterminated
quoted field name. -/
def c2worst : List Char := ['{', '"', 'a']

/-- Input of claim C4's counterexample: `assert` followed by identifier
characters. -/
def c4input : List Char := "asserted".data

/-- Keyword-boundary example input `fortunate`. -/
def c4fortunate : List Char := "fortunate".data

/-- Keyword-boundary example input `for`. -/
def c4for : List Char := "for".data

/-- Documentation-comment input of claim C5. -/
def c5doc : List Char := "/** doc */".data

/-- Plain block-comment input of claim C5. -/
def c5plain : List Char := "/* plain */".data

/-- Line-comment input of claim C5 (with trailing newline). -/
def c5line : List Char := "// line\n".data

/-- Input of claim C6's failing case: digits, a non-dot character, a digit. -/
def c6input : List Char := "1x2".data

/-- Input of claim C7: a stray colon at root. -/
def c7colon : List Char := [':']

/-- Function-call input of claim C8. -/
def c8call : List Char := "foo(1)".data

/-- Builtin-call input of claim C8. -/
def c8std : List Char := "std.foo(".data

/-- Object input of claim C10 (zero-width token before the field name). -/
def c10obj : List Char := "\x7ba: 1\x7d".data

/-- Input exercising the `(?==)` lookahead of `local_name`. -/
def c10local : List Char := "local=".data

/-- Input exercising the `(?=[,\)])` lookahead of `function_param_default`. -/
def c10fpd : List Char := "function(=,".data

theorem matchLit_spec : ∀ w s k, matchLit w s = some k → k = w.length ∧ s.take k = w := by
  intro w
  induction w with
  | nil =>
    intro s k h
    simp only [matchLit, Option.some.injEq] at h
    subst h
    simp
  | cons c cs ih =>
    intro s k h
    cases s with
    | nil => simp [matchLit] at h
    | cons d ds =>
      simp only [matchLit] at h
      split at h
      · next hcd =>
        rcases Option.map_eq_some'.mp h with ⟨k', hk', rfl⟩
        obtain ⟨h1, h2⟩ := ih ds k' hk'
        subst h1 hcd
        simp [List.take_succ_cons, h2]
      · exact absurd h (by simp)

theorem matchWordGuard_spec :
    ∀ w s k, matchWordGuard w s = some k →
      k = w.length ∧ s.take k = w ∧ headTokenChar (s.drop k) = false := by
  intro w s k h
  unfold matchWordGuard at h
  cases hl : matchLit w s with
  | none => rw [hl] at h; exact absurd h (by simp)
  | some k' =>
    rw [hl] at h
    dsimp only at h
    by_cases hg : headTokenChar (s.drop k') = true
    · rw [if_pos hg] at h; exact absurd h (by simp)
    · rw [if_neg hg] at h
      cases h
      obtain ⟨h1, h2⟩ := matchLit_spec w s _ hl
      exact ⟨h1, h2, by simpa using hg⟩

theorem matchWords_spec :
    ∀ ws s k, matchWords ws s = some k → ∃ w ∈ ws, matchWordGuard w s = some k := by
  intro ws
  induction ws with
  | nil => intro s k h; simp [matchWords] at h
  | cons w ws ih =>
    intro s k h
    unfold matchWords at h
    cases hg : matchWordGuard w s with
    | some k' => rw [hg] at h; cases h; exact ⟨w, by simp, hg⟩
    | none =>
      rw [hg] at h
      obtain ⟨w', hw', hg'⟩ := ih s k h
      exact ⟨w', by simp [hw'], hg'⟩

theorem minOne_matchLit (w : List Char) (hw : w ≠ []) : MinOne (matchLit w) := by
  intro s k h
  obtain ⟨h1, _⟩ := matchLit_spec w s k h
  subst h1
  cases w with
  | nil => exact absurd rfl hw
  | cons c cs => simp

theorem minOne_matchWordGuard (w : List Char) (hw : w ≠ []) : MinOne (matchWordGuard w) := by
  intro s k h
  obtain ⟨h1, _, _⟩ := matchWordGuard_spec w s k h
  subst h1
  cases w with
  | nil => exact absurd rfl hw
  | cons c cs => simp

theorem minOne_matchKeywords : MinOne matchKeywords := by
  intro s k h
  obtain ⟨w, hw, hg⟩ := matchWords_spec kwWords s k h
  refine minOne_matchWordGuard w ?_ s k hg
  revert hw
  have : ∀ w ∈ kwWords, w ≠ [] := by decide
  exact this w

theorem minOne_matchChar (c : Char) : MinOne (matchChar c) := by
  intro s k h
  unfold matchChar at h
  split at h
  · split at h
    · cases h; exact le_refl 1
    · exact absurd h (by simp)
  · exact absurd h (by simp)

theorem minOne_matchCharSet (cs : List Char) : MinOne (matchCharSet cs) := by
  intro s k h
  unfold matchCharSet at h
  split at h
  · split at h
    · cases h; exact le_refl 1
    · exact absurd h (by simp)
  · exact absurd h (by simp)

theorem matchToken_spec : ∀ s k, matchToken s = some k → 1 ≤ k := by
  intro s k h
  unfold matchToken at h
  split at h
  · split at h
    · cases h; omega
    · exact absurd h (by simp)
  · exact absurd h (by simp)

theorem minOne_matchToken : MinOne matchToken := matchToken_spec

theorem minOne_matchFuncToken : MinOne matchFuncToken := by
  intro s k h
  unfold matchFuncToken at h
  cases ht : matchToken s with
  | none => rw [ht] at h; exact absurd h (by simp)
  | some k' =>
    rw [ht] at h
    dsimp only at h
    by_cases hp : (s.drop k').head? = some '('
    · rw [if_pos hp] at h; cases h; exact matchToken_spec s k ht
    · rw [if_neg hp] at h; exact absurd h (by simp)

theorem minOne_matchStdFunc : MinOne matchStdFunc := by
  intro s k h
  unfold matchStdFunc at h
  split at h
  · rcases Option.map_eq_some'.mp h with ⟨k', _, rfl⟩
    omega
  · exact absurd h (by simp)

theorem minOne_matchFunctionLP : MinOne matchFunctionLP := by
  intro s k h
  unfold matchFunctionLP at h
  cases hl : matchLit ("function".data) s with
  | none => rw [hl] at h; exact absurd h (by simp)
  | some k' =>
    rw [hl] at h
    dsimp only at h
    by_cases hp : (s.drop k').head? = some '('
    · rw [if_pos hp] at h; cases h; exact minOne_matchLit _ (by decide) s k hl
    · rw [if_neg hp] at h; exact absurd h (by simp)

theorem minOne_matchWs : MinOne matchWs := by
  intro s k h
  unfold matchWs at h
  split at h
  · exact absurd h (by simp)
  · cases h; omega

theorem minOne_matchNumberBody : ∀ t k, matchNumberBody t = some k → 1 ≤ k := by
  intro t k h
  unfold matchNumberBody at h
  split at h
  · exact absurd h (by simp)
  · split at h
    · split at h <;> (cases h; omega)
    · cases h; omega

theorem minOne_matchNumber : MinOne matchNumber := by
  intro s k h
  unfold matchNumber at h
  split at h
  · split at h
    · rcases Option.map_eq_some'.mp h with ⟨j, _, rfl⟩; omega
    · exact minOne_matchNumberBody _ k h
  · exact absurd h (by simp)

theorem minOne_matchLineComment : MinOne matchLineComment := by
  intro s k h
  unfold matchLineComment at h
  split at h
  · rcases Option.map_eq_some'.mp h with ⟨j, _, rfl⟩; omega
  · split at h
    · rcases Option.map_eq_some'.mp h with ⟨j, _, rfl⟩; omega
    · exact absurd h (by simp)

theorem minOne_matchDocComment : MinOne matchDocComment := by
  intro s k h
  unfold matchDocComment at h
  split at h
  · rcases Option.map_eq_some'.mp h with ⟨j, _, rfl⟩; omega
  · exact absurd h (by simp)

theorem minOne_matchBlockComment : MinOne matchBlockComment := by
  intro s k h
  unfold matchBlockComment at h
  split at h
  · rcases Option.map_eq_some'.mp h with ⟨j, _, rfl⟩; omega
  · exact absurd h (by simp)

theorem minOne_matchAtString (q : Char) : MinOne (matchAtString q) := by
  intro s k h
  unfold matchAtString at h
  split at h
  · rcases Option.map_eq_some'.mp h with ⟨j, _, rfl⟩; omega
  · exact absurd h (by simp)

theorem minOne_matchTripleBar : MinOne matchTripleBar := by
  intro s k h
  unfold matchTripleBar at h
  split at h
  · rcases Option.map_eq_some'.mp h with ⟨j, _, rfl⟩; omega
  · exact absurd h (by simp)

theorem minOne_matchColons : ∀ t k, matchColons t = some k → 1 ≤ k := by
  intro t k h
  unfold matchColons at h
  split at h <;> first
    | (cases h; omega)
    | exact absurd h (by simp)

theorem minOne_matchSepPunct : MinOne matchSepPunct := by
  intro s k h
  unfold matchSepPunct at h
  split at h
  · rcases Option.map_eq_some'.mp h with ⟨j, _, rfl⟩; omega
  · exact minOne_matchColons _ k h

theorem minOne_matchStringChar (q : Char) : MinOne (matchStringChar q) := by
  intro s k h
  unfold matchStringChar at h
  split at h
  · split at h
    · exact absurd h (by simp)
    · cases h; exact le_refl 1
  · exact absurd h (by simp)

theorem minOne_matchEscape : MinOne matchEscape := by
  intro s k h
  unfold matchEscape at h
  split at h
  · split at h
    · exact absurd h (by simp)
    · cases h; omega
  · exact absurd h (by simp)

theorem minOne_quotedFieldRest (q : Char) : ∀ s k, quotedFieldRest q s = some k → 1 ≤ k := by
  intro s
  induction s with
  | nil => intro k h; simp [quotedFieldRest] at h
  | cons c rest ih =>
    intro k h
    unfold quotedFieldRest at h
    split at h
    · cases h; exact le_refl 1
    · split at h
      · split at h
        · exact absurd h (by simp)
        · split at h
          · exact absurd h (by simp)
          · rcases Option.map_eq_some'.mp h with ⟨j, _, rfl⟩; omega
      · rcases Option.map_eq_some'.mp h with ⟨j, _, rfl⟩; omega

theorem minOne_matchQuotedFieldName (q : Char) : MinOne (matchQuotedFieldName q) :=
  fun s k h => minOne_quotedFieldRest q s k h

theorem bool_and_left {a b : Bool} (h : (a && b) = true) : a = true := by
  simp only [Bool.and_eq_true] at h
  exact h.1

theorem bool_and_right {a b : Bool} (h : (a && b) = true) : b = true := by
  simp only [Bool.and_eq_true] at h
  exact h.2

theorem bool_and_intro {a b : Bool} (h1 : a = true) (h2 : b = true) : (a && b) = true := by
  simp [h1, h2]

theorem findRule_mem :
    ∀ rs s r k, findRule rs s = some (r, k) → r ∈ rs ∧ r.pat s = some k := by
  intro rs
  induction rs with
  | nil => intro s r k h; simp [findRule] at h
  | cons r0 rest ih =>
    intro s r k h
    unfold findRule at h
    cases hp : r0.pat s with
    | some k' =>
      rw [hp] at h
      cases h
      exact ⟨List.mem_cons_self _ _, hp⟩
    | none =>
      rw [hp] at h
      obtain ⟨h1, h2⟩ := ih s r k h
      exact ⟨List.mem_cons_of_mem _ h1, h2⟩

theorem popClamp_zero (st : List StateName) : popClamp 0 st = st := by
  simp [popClamp]

theorem popClamp_one (a b : StateName) (t : List StateName) :
    popClamp 1 (a :: b :: t) = b :: t := by
  unfold popClamp
  have h1 : min 1 ((a :: b :: t).length - 1) = 1 :=
    Nat.min_eq_left (by simp)
  rw [h1]
  rfl

theorem popClamp_two (a b c : StateName) (t : List StateName) :
    popClamp 2 (a :: b :: c :: t) = c :: t := by
  unfold popClamp
  have h1 : min 2 ((a :: b :: c :: t).length - 1) = 2 :=
    Nat.min_eq_left (by simp)
  rw [h1]
  rfl

theorem applyAct_stay (st : List StateName) : applyAct stay st = st := by
  simp [applyAct, stay, pushAll, popClamp_zero]

theorem applyAct_push1 (a : StateName) (st : List StateName) :
    applyAct (push1 a) st = a :: st := by
  simp [applyAct, push1, pushAll, popClamp_zero]

theorem applyAct_push2 (a b : StateName) (st : List StateName) :
    applyAct ⟨0, [a, b]⟩ st = b :: a :: st := by
  simp [applyAct, pushAll, popClamp_zero]

theorem applyAct_pop1 (a b : StateName) (t : List StateName) :
    applyAct pop1 (a :: b :: t) = b :: t := by
  simp [applyAct, pop1, pushAll, popClamp_one]

theorem applyAct_pop1push (x a b : StateName) (t : List StateName) :
    applyAct ⟨1, [x]⟩ (a :: b :: t) = x :: b :: t := by
  simp [applyAct, pushAll, popClamp_one]

theorem applyAct_pop2push (x a b c : StateName) (t : List StateName) :
    applyAct ⟨2, [x]⟩ (a :: b :: c :: t) = x :: c :: t := by
  simp [applyAct, pushAll, popClamp_two]

theorem applyAct_pop2 (a b c : StateName) (t : List StateName) :
    applyAct ⟨2, []⟩ (a :: b :: c :: t) = c :: t := by
  simp [applyAct, pushAll, popClamp_two]

theorem good_cons (a b : StateName) (t : List StateName) :
    goodStack (a :: b :: t) = (belowOK a b && goodStack (b :: t)) := rfl

theorem good_below (a b : StateName) (t : List StateName)
    (h : goodStack (a :: b :: t) = true) : belowOK a b = true := by
  rw [good_cons] at h
  exact bool_and_left h

theorem good_tail (a b : StateName) (t : List StateName)
    (h : goodStack (a :: b :: t) = true) : goodStack (b :: t) = true := by
  rw [good_cons] at h
  exact bool_and_right h

theorem good_tail_ne (s : StateName) (t : List StateName)
    (hg : goodStack (s :: t) = true) (hs : s ≠ .root) : t ≠ [] := by
  cases t with
  | nil =>
    have : s = .root := by simpa [goodStack] using hg
    exact absurd this hs
  | cons b t' => simp

theorem actOK_stay (s : StateName) (t : List StateName)
    (hg : goodStack (s :: t) = true) :
    goodStack (applyAct stay (s :: t)) = true ∧ stay.pops < (s :: t).length := by
  rw [applyAct_stay]
  exact ⟨hg, by simp [stay]⟩

theorem actOK_push1 (a s : StateName) (t : List StateName)
    (hg : goodStack (s :: t) = true) (hb : belowOK a s = true) :
    goodStack (applyAct (push1 a) (s :: t)) = true ∧ (push1 a).pops < (s :: t).length := by
  rw [applyAct_push1]
  constructor
  · rw [good_cons]
    exact bool_and_intro hb hg
  · simp [push1]

theorem actOK_push2 (a b s : StateName) (t : List StateName)
    (hg : goodStack (s :: t) = true) (hb1 : belowOK a s = true)
    (hb2 : belowOK b a = true) :
    goodStack (applyAct ⟨0, [a, b]⟩ (s :: t)) = true ∧
      (Act.mk 0 [a, b]).pops < (s :: t).length := by
  rw [applyAct_push2]
  constructor
  · rw [good_cons]
    refine bool_and_intro hb2 ?_
    rw [good_cons]
    exact bool_and_intro hb1 hg
  · simp

theorem actOK_pop1 (s : StateName) (t : List StateName)
    (hg : goodStack (s :: t) = true) (hs : s ≠ .root) :
    goodStack (applyAct pop1 (s :: t)) = true ∧ pop1.pops < (s :: t).length := by
  cases t with
  | nil => exact absurd rfl (good_tail_ne s [] hg hs)
  | cons b t' =>
    rw [applyAct_pop1]
    exact ⟨good_tail _ _ _ hg, by simp [pop1]⟩

theorem actOK_pop1push (x s : StateName) (t : List StateName)
    (hg : goodStack (s :: t) = true) (hs : s ≠ .root)
    (hb : ∀ b, belowOK s b = true → belowOK x b = true) :
    goodStack (applyAct ⟨1, [x]⟩ (s :: t)) = true ∧
      (Act.mk 1 [x]).pops < (s :: t).length := by
  cases t with
  | nil => exact absurd rfl (good_tail_ne s [] hg hs)
  | cons b t' =>
    rw [applyAct_pop1push]
    constructor
    · rw [good_cons]
      exact bool_and_intro (hb b (good_below _ _ _ hg)) (good_tail _ _ _ hg)
    · simp

theorem actOK_pop2obj (s : StateName) (t : List StateName)
    (hg : goodStack (s :: t) = true) (hs : s ≠ .root)
    (hobj : ∀ b, belowOK s b = true → b = .object) :
    goodStack (applyAct ⟨2, []⟩ (s :: t)) = true ∧
      (Act.mk 2 []).pops < (s :: t).length := by
  cases t with
  | nil => exact absurd rfl (good_tail_ne s [] hg hs)
  | cons b t' =>
    have hbo : b = .object := hobj b (good_below _ _ _ hg)
    subst hbo
    cases t' with
    | nil => exact absurd rfl (good_tail_ne _ [] (good_tail _ _ _ hg) (by simp))
    | cons c t'' =>
      rw [applyAct_pop2]
      exact ⟨good_tail _ _ _ (good_tail _ _ _ hg), by simp⟩

theorem belowOK_fs_object (b y : StateName) (hb : belowOK .field_separator b = true)
    (hy : belowOK b y = true) : y = .object := by
  cases b <;> simp [belowOK] at hb <;> cases y <;> simp_all [belowOK]

theorem actOK_fs (t : List StateName)
    (hg : goodStack (.field_separator :: t) = true) :
    goodStack (applyAct ⟨2, [.field_value]⟩ (.field_separator :: t)) = true ∧
      (Act.mk 2 [.field_value]).pops < (StateName.field_separator :: t).length := by
  cases t with
  | nil => exact absurd rfl (good_tail_ne _ [] hg (by simp))
  | cons b t' =>
    have hb : belowOK .field_separator b = true := good_below _ _ _ hg
    have hbr : b ≠ .root := by
      intro hbr
      subst hbr
      simp [belowOK, isRv] at hb
    cases t' with
    | nil => exact absurd rfl (good_tail_ne _ [] (good_tail _ _ _ hg) hbr)
    | cons y t'' =>
      have hy : y = .object :=
        belowOK_fs_object b y hb (good_below _ _ _ (good_tail _ _ _ hg))
      subst hy
      rw [applyAct_pop2push]
      constructor
      · rw [good_cons]
        refine bool_and_intro (by simp [belowOK]) ?_
        exact good_tail _ _ _ (good_tail _ _ _ hg)
      · simp

theorem stepOK_rvalues (s : StateName) (t : List StateName) (hs : isRv s = true)
    (hg : goodStack (s :: t) = true) :
    ∀ r ∈ rvalues,
      goodStack (applyAct r.act (s :: t)) = true ∧ r.act.pops < (s :: t).length := by
  intro r hr
  simp only [rvalues, comments, List.mem_append, List.mem_cons,
    List.not_mem_nil, or_false] at hr
  rcases hr with (rfl | rfl | rfl) |
    (rfl | rfl | rfl | rfl | rfl | rfl | rfl | rfl | rfl | rfl | rfl | rfl |
     rfl | rfl | rfl | rfl | rfl | rfl) <;>
    first
      | exact actOK_stay _ _ hg
      | exact actOK_push1 _ _ _ hg (by simp [belowOK, hs])

theorem step_ok (s : StateName) (t : List StateName) (r : Rule) (k : Nat)
    (rest : List Char) (hg : goodStack (s :: t) = true)
    (hf : findRule (rules s) rest = some (r, k)) :
    goodStack (applyAct r.act (s :: t)) = true ∧ r.act.pops < (s :: t).length := by
  obtain ⟨hm, -⟩ := findRule_mem _ _ _ _ hf
  cases s with
  | root => exact stepOK_rvalues .root t rfl hg r hm
  | singlestring =>
    simp only [rules, string_rules, List.mem_cons, List.not_mem_nil, or_false] at hm
    rcases hm with rfl | rfl | rfl
    · exact actOK_stay _ _ hg
    · exact actOK_stay _ _ hg
    · exact actOK_pop1 _ _ hg (by decide)
  | doublestring =>
    simp only [rules, string_rules, List.mem_cons, List.not_mem_nil, or_false] at hm
    rcases hm with rfl | rfl | rfl
    · exact actOK_stay _ _ hg
    · exact actOK_stay _ _ hg
    · exact actOK_pop1 _ _ hg (by decide)
  | array =>
    simp only [rules, List.mem_append, List.mem_cons, List.not_mem_nil, or_false] at hm
    rcases hm with (rfl | rfl) | hm
    · exact actOK_stay _ _ hg
    · exact actOK_pop1 _ _ hg (by decide)
    · exact stepOK_rvalues .array t rfl hg r hm
  | local_name =>
    simp only [rules, List.mem_cons, List.not_mem_nil, or_false] at hm
    rcases hm with rfl | rfl | rfl | rfl
    · exact actOK_push1 _ _ _ hg (by decide)
    · exact actOK_stay _ _ hg
    · exact actOK_stay _ _ hg
    · exact actOK_pop1push _ _ _ hg (by decide) (fun b hb => hb)
  | local_value =>
    simp only [rules, List.mem_append, List.mem_cons, List.not_mem_nil, or_false] at hm
    rcases hm with (rfl | rfl) | hm
    · exact actOK_stay _ _ hg
    · exact actOK_pop1 _ _ hg (by decide)
    · exact stepOK_rvalues .local_value t rfl hg r hm
  | assert_state =>
    simp only [rules, List.mem_append, List.mem_cons, List.not_mem_nil, or_false] at hm
    rcases hm with (rfl | rfl) | hm
    · exact actOK_stay _ _ hg
    · exact actOK_pop1 _ _ hg (by decide)
    · exact stepOK_rvalues .assert_state t rfl hg r hm
  | function_params =>
    simp only [rules, List.mem_cons, List.not_mem_nil, or_false] at hm
    rcases hm with rfl | rfl | rfl | rfl | rfl | rfl
    · exact actOK_stay _ _ hg
    · exact actOK_stay _ _ hg
    · exact actOK_pop1 _ _ hg (by decide)
    · exact actOK_stay _ _ hg
    · exact actOK_stay _ _ hg
    · exact actOK_push1 _ _ _ hg (by decide)
  | function_args =>
    simp only [rules, List.mem_append, List.mem_cons, List.not_mem_nil, or_false] at hm
    rcases hm with (rfl | rfl | rfl | rfl) | hm
    · exact actOK_stay _ _ hg
    · exact actOK_pop1 _ _ hg (by decide)
    · exact actOK_stay _ _ hg
    · exact actOK_stay _ _ hg
    · exact stepOK_rvalues .function_args t rfl hg r hm
  | object =>
    simp only [rules, comments, List.mem_append, List.mem_cons,
      List.not_mem_nil, or_false] at hm
    rcases hm with (rfl | rfl | rfl | rfl | rfl | rfl | rfl | rfl) | (rfl | rfl | rfl)
    · exact actOK_stay _ _ hg
    · exact actOK_push1 _ _ _ hg (by decide)
    · exact actOK_push1 _ _ _ hg (by decide)
    · exact actOK_push1 _ _ _ hg (by decide)
    · exact actOK_push1 _ _ _ hg (by decide)
    · exact actOK_pop1 _ _ hg (by decide)
    · exact actOK_push1 _ _ _ hg (by decide)
    · exact actOK_push1 _ _ _ hg (by decide)
    · exact actOK_stay _ _ hg
    · exact actOK_stay _ _ hg
    · exact actOK_stay _ _ hg
  | field_name =>
    simp only [rules, List.mem_cons, List.not_mem_nil, or_false] at hm
    rcases hm with rfl | rfl
    · exact actOK_push2 _ _ _ _ hg (by decide) (by decide)
    · exact actOK_push1 _ _ _ hg (by decide)
  | double_field_name =>
    simp only [rules, quoted_field_name, List.mem_cons, List.not_mem_nil, or_false] at hm
    rcases hm with rfl
    exact actOK_push1 _ _ _ hg (by decide)
  | single_field_name =>
    simp only [rules, quoted_field_name, List.mem_cons, List.not_mem_nil, or_false] at hm
    rcases hm with rfl
    exact actOK_push1 _ _ _ hg (by decide)
  | field_name_expr =>
    simp only [rules, List.mem_append, List.mem_cons, List.not_mem_nil, or_false] at hm
    rcases hm with rfl | hm
    · exact actOK_push1 _ _ _ hg (by decide)
    · exact stepOK_rvalues .field_name_expr t rfl hg r hm
  | function_param_default =>
    simp only [rules, List.mem_append, List.mem_cons, List.not_mem_nil, or_false] at hm
    rcases hm with rfl | hm
    · exact actOK_pop1 _ _ hg (by decide)
    · exact stepOK_rvalues .function_param_default t rfl hg r hm
  | field_separator =>
    simp only [rules, comments, List.mem_append, List.mem_cons,
      List.not_mem_nil, or_false] at hm
    rcases hm with (rfl | rfl) | (rfl | rfl | rfl)
    · exact actOK_stay _ _ hg
    · exact actOK_fs _ hg
    · exact actOK_stay _ _ hg
    · exact actOK_stay _ _ hg
    · exact actOK_stay _ _ hg
  | field_value =>
    simp only [rules, List.mem_append, List.mem_cons, List.not_mem_nil, or_false] at hm
    rcases hm with (rfl | rfl) | hm
    · exact actOK_pop1 _ _ hg (by decide)
    · exact actOK_pop2obj _ _ hg (by decide) (fun b hb => of_decide_eq_true hb)
    · exact stepOK_rvalues .field_value t rfl hg r hm
  | object_assert =>
    simp only [rules, List.mem_append, List.mem_cons, List.not_mem_nil, or_false] at hm
    rcases hm with (rfl | rfl) | hm
    · exact actOK_stay _ _ hg
    · exact actOK_pop1 _ _ hg (by decide)
    · exact stepOK_rvalues .object_assert t rfl hg r hm
  | object_local_name =>
    simp only [rules, List.mem_cons, List.not_mem_nil, or_false] at hm
    rcases hm with rfl | rfl
    · exact actOK_pop1push _ _ _ hg (by decide) (fun b hb => hb)
    · exact actOK_stay _ _ hg
  | object_local_value =>
    simp only [rules, List.mem_append, List.mem_cons, List.not_mem_nil, or_false] at hm
    rcases hm with (rfl | rfl | rfl) | hm
    · exact actOK_stay _ _ hg
    · exact actOK_pop1 _ _ hg (by decide)
    · exact actOK_pop2obj _ _ hg (by decide) (fun b hb => of_decide_eq_true hb)
    · exact stepOK_rvalues .object_local_value t rfl hg r hm

theorem min1_rvalues : ∀ r ∈ rvalues, MinOne r.pat := by
  intro r hr
  simp only [rvalues, comments, List.mem_append, List.mem_cons,
    List.not_mem_nil, or_false] at hr
  rcases hr with (rfl | rfl | rfl) |
    (rfl | rfl | rfl | rfl | rfl | rfl | rfl | rfl | rfl | rfl | rfl | rfl |
     rfl | rfl | rfl | rfl | rfl | rfl) <;>
    first
      | exact minOne_matchLineComment
      | exact minOne_matchDocComment
      | exact minOne_matchBlockComment
      | exact minOne_matchAtString _
      | exact minOne_matchChar _
      | exact minOne_matchTripleBar
      | exact minOne_matchNumber
      | exact minOne_matchCharSet _
      | exact minOne_matchWordGuard _ (by decide)
      | exact minOne_matchLit _ (by decide)
      | exact minOne_matchKeywords
      | exact minOne_matchWs
      | exact minOne_matchFunctionLP
      | exact minOne_matchStdFunc
      | exact minOne_matchFuncToken
      | exact minOne_matchToken

theorem min1_string_rules (q : Char) : ∀ r ∈ string_rules q, MinOne r.pat := by
  intro r hr
  simp only [string_rules, List.mem_cons, List.not_mem_nil, or_false] at hr
  rcases hr with rfl | rfl | rfl
  · exact minOne_matchStringChar _
  · exact minOne_matchEscape
  · exact minOne_matchChar _

theorem min1_root : ∀ r ∈ rules .root, MinOne r.pat := min1_rvalues

theorem min1_singlestring : ∀ r ∈ rules .singlestring, MinOne r.pat :=
  min1_string_rules '\''

theorem min1_doublestring : ∀ r ∈ rules .doublestring, MinOne r.pat :=
  min1_string_rules '"'

theorem min1_array : ∀ r ∈ rules .array, MinOne r.pat := by
  intro r hr
  simp only [rules, List.mem_append, List.mem_cons, List.not_mem_nil, or_false] at hr
  rcases hr with (rfl | rfl) | hr
  · exact minOne_matchChar _
  · exact minOne_matchChar _
  · exact min1_rvalues r hr

theorem min1_local_value : ∀ r ∈ rules .local_value, MinOne r.pat := by
  intro r hr
  simp only [rules, List.mem_append, List.mem_cons, List.not_mem_nil, or_false] at hr
  rcases hr with (rfl | rfl) | hr
  · exact minOne_matchChar _
  · exact minOne_matchChar _
  · exact min1_rvalues r hr

theorem min1_assert_state : ∀ r ∈ rules .assert_state, MinOne r.pat := by
  intro r hr
  simp only [rules, List.mem_append, List.mem_cons, List.not_mem_nil, or_false] at hr
  rcases hr with (rfl | rfl) | hr
  · exact minOne_matchChar _
  · exact minOne_matchChar _
  · exact min1_rvalues r hr

theorem min1_function_params : ∀ r ∈ rules .function_params, MinOne r.pat := by
  intro r hr
  simp only [rules, List.mem_cons, List.not_mem_nil, or_false] at hr
  rcases hr with rfl | rfl | rfl | rfl | rfl | rfl <;>
    first
      | exact minOne_matchToken
      | exact minOne_matchChar _
      | exact minOne_matchWs

theorem min1_function_args : ∀ r ∈ rules .function_args, MinOne r.pat := by
  intro r hr
  simp only [rules, List.mem_append, List.mem_cons, List.not_mem_nil, or_false] at hr
  rcases hr with (rfl | rfl | rfl | rfl) | hr
  · exact minOne_matchChar _
  · exact minOne_matchChar _
  · exact minOne_matchChar _
  · exact minOne_matchWs
  · exact min1_rvalues r hr

theorem min1_field_name : ∀ r ∈ rules .field_name, MinOne r.pat := by
  intro r hr
  simp only [rules, List.mem_cons, List.not_mem_nil, or_false] at hr
  rcases hr with rfl | rfl
  · exact minOne_matchFuncToken
  · exact minOne_matchToken

theorem min1_double_field_name : ∀ r ∈ rules .double_field_name, MinOne r.pat := by
  intro r hr
  simp only [rules, quoted_field_name, List.mem_cons, List.not_mem_nil, or_false] at hr
  rcases hr with rfl
  exact minOne_matchQuotedFieldName _

theorem min1_single_field_name : ∀ r ∈ rules .single_field_name, MinOne r.pat := by
  intro r hr
  simp only [rules, quoted_field_name, List.mem_cons, List.not_mem_nil, or_false] at hr
  rcases hr with rfl
  exact minOne_matchQuotedFieldName _

theorem min1_field_name_expr : ∀ r ∈ rules .field_name_expr, MinOne r.pat := by
  intro r hr
  simp only [rules, List.mem_append, List.mem_cons, List.not_mem_nil, or_false] at hr
  rcases hr with rfl | hr
  · exact minOne_matchChar _
  · exact min1_rvalues r hr

theorem min1_field_separator : ∀ r ∈ rules .field_separator, MinOne r.pat := by
  intro r hr
  simp only [rules, comments, List.mem_append, List.mem_cons,
    List.not_mem_nil, or_false] at hr
  rcases hr with (rfl | rfl) | (rfl | rfl | rfl) <;>
    first
      | exact minOne_matchWs
      | exact minOne_matchSepPunct
      | exact minOne_matchLineComment
      | exact minOne_matchDocComment
      | exact minOne_matchBlockComment

theorem min1_field_value : ∀ r ∈ rules .field_value, MinOne r.pat := by
  intro r hr
  simp only [rules, List.mem_append, List.mem_cons, List.not_mem_nil, or_false] at hr
  rcases hr with (rfl | rfl) | hr
  · exact minOne_matchChar _
  · exact minOne_matchChar _
  · exact min1_rvalues r hr

theorem min1_object_assert : ∀ r ∈ rules .object_assert, MinOne r.pat := by
  intro r hr
  simp only [rules, List.mem_append, List.mem_cons, List.not_mem_nil, or_false] at hr
  rcases hr with (rfl | rfl) | hr
  · exact minOne_matchChar _
  · exact minOne_matchChar _
  · exact min1_rvalues r hr

theorem min1_object_local_name : ∀ r ∈ rules .object_local_name, MinOne r.pat := by
  intro r hr
  simp only [rules, List.mem_cons, List.not_mem_nil, or_false] at hr
  rcases hr with rfl | rfl
  · exact minOne_matchToken
  · exact minOne_matchWs

theorem min1_object_local_value : ∀ r ∈ rules .object_local_value, MinOne r.pat := by
  intro r hr
  simp only [rules, List.mem_append, List.mem_cons, List.not_mem_nil, or_false] at hr
  rcases hr with (rfl | rfl | rfl) | hr
  · exact minOne_matchChar _
  · exact minOne_matchChar _
  · exact minOne_matchChar _
  · exact min1_rvalues r hr

theorem zeroRule_object : ∀ r ∈ rules .object, ∀ rest, r.pat rest = some 0 →
    r.act = push1 .field_name ∧ r.cat = .nameVariable := by
  intro r hr rest h0
  simp only [rules, comments, List.mem_append, List.mem_cons,
    List.not_mem_nil, or_false] at hr
  rcases hr with (rfl | rfl | rfl | rfl | rfl | rfl | rfl | rfl) | (rfl | rfl | rfl) <;>
    first
      | exact ⟨rfl, rfl⟩
      | exact absurd (minOne_matchWs _ _ h0) (by decide)
      | exact absurd (minOne_matchWordGuard _ (by decide) _ _ h0) (by decide)
      | exact absurd (minOne_matchChar _ _ _ h0) (by decide)
      | exact absurd (minOne_matchLineComment _ _ h0) (by decide)
      | exact absurd (minOne_matchDocComment _ _ h0) (by decide)
      | exact absurd (minOne_matchBlockComment _ _ h0) (by decide)

theorem zeroRule_local_name : ∀ r ∈ rules .local_name, ∀ rest, r.pat rest = some 0 →
    r.act = ⟨1, [.local_value]⟩ ∧ r.cat = .whitespace := by
  intro r hr rest h0
  simp only [rules, List.mem_cons, List.not_mem_nil, or_false] at hr
  rcases hr with rfl | rfl | rfl | rfl <;>
    first
      | exact ⟨rfl, rfl⟩
      | exact absurd (minOne_matchFuncToken _ _ h0) (by decide)
      | exact absurd (minOne_matchToken _ _ h0) (by decide)
      | exact absurd (minOne_matchWs _ _ h0) (by decide)

theorem zeroRule_fpd : ∀ r ∈ rules .function_param_default, ∀ rest,
    r.pat rest = some 0 → r.act = pop1 ∧ r.cat = .whitespace := by
  intro r hr rest h0
  simp only [rules, List.mem_append, List.mem_cons, List.not_mem_nil, or_false] at hr
  rcases hr with rfl | hr
  · exact ⟨rfl, rfl⟩
  · exact absurd (min1_rvalues r hr _ _ h0) (by decide)

theorem isSome_map {α β : Type} (f : α → β) (o : Option α) (h : o.isSome = true) :
    (o.map f).isSome = true := by
  cases o with
  | none => simp at h
  | some a => rfl

theorem run_cons_eq (fuel : Nat) (c : Char) (rest : List Char) (stack : List StateName) :
    run (fuel + 1) (c :: rest) stack =
      match findRule (rules (stack.headD .root)) (c :: rest) with
      | some (r, k) =>
        (run fuel ((c :: rest).drop k) (applyAct r.act stack)).map
          (fun ts => Tok.mk r.cat ((c :: rest).take k) :: ts)
      | none => (run fuel rest stack).map (fun ts => Tok.mk .error [c] :: ts) := rfl

theorem run_after_zw (f2 : Nat) (c : Char) (rest' : List Char) (s2 : StateName)
    (t2 : List StateName) (hgood : goodStack (s2 :: t2) = true)
    (hmin : ∀ r ∈ rules s2, MinOne r.pat)
    (ih : ∀ m, m < f2 + 2 → ∀ (rest : List Char) (stack : List StateName),
        goodStack stack = true → 2 * rest.length + 1 ≤ m →
        (run m rest stack).isSome = true)
    (hb : 2 * (c :: rest').length + 1 ≤ f2 + 2) :
    (run (f2 + 1) (c :: rest') (s2 :: t2)).isSome = true := by
  rw [run_cons_eq]
  cases hf : findRule (rules ((s2 :: t2).headD .root)) (c :: rest') with
  | none =>
    dsimp only
    apply isSome_map
    apply ih f2 (by omega) rest' (s2 :: t2) hgood
    simp only [List.length_cons] at hb
    omega
  | some rk =>
    obtain ⟨r, k⟩ := rk
    dsimp only
    apply isSome_map
    obtain ⟨hm, hp⟩ := findRule_mem _ _ _ _ hf
    have hk : 1 ≤ k := hmin r hm _ _ hp
    have hgood2 := (step_ok s2 t2 r k _ hgood hf).1
    apply ih f2 (by omega) _ _ hgood2
    rw [List.length_drop]
    simp only [List.length_cons] at hb ⊢
    omega

theorem run_isSome : ∀ (fuel : Nat) (rest : List Char) (stack : List StateName),
    goodStack stack = true → 2 * rest.length + 1 ≤ fuel →
    (run fuel rest stack).isSome = true := by
  intro fuel
  induction fuel using Nat.strong_induction_on with
  | h fuel ih =>
    intro rest stack hg hb
    cases fuel with
    | zero => exact absurd hb (by omega)
    | succ f =>
      cases rest with
      | nil => rfl
      | cons c rest' =>
        cases stack with
        | nil => simp [goodStack] at hg
        | cons s t =>
          rw [run_cons_eq]
          cases hf : findRule (rules ((s :: t).headD .root)) (c :: rest') with
          | none =>
            dsimp only
            apply isSome_map
            apply ih f (by omega) rest' (s :: t) hg
            simp only [List.length_cons] at hb
            omega
          | some rk =>
            obtain ⟨r, k⟩ := rk
            dsimp only
            rcases Nat.eq_zero_or_pos k with rfl | hk
            · -- a zero-width match: only the three lookahead rules are possible
              obtain ⟨hm, hp⟩ := findRule_mem _ _ _ _ hf
              apply isSome_map
              have hf3 : f = (f - 1) + 1 := by
                simp only [List.length_cons] at hb
                omega
              have hble : 2 * (c :: rest').length + 1 ≤ (f - 1) + 2 := by
                simp only [List.length_cons] at hb ⊢
                omega
              have ihle : ∀ m, m < (f - 1) + 2 → ∀ (rest : List Char)
                  (stack : List StateName), goodStack stack = true →
                  2 * rest.length + 1 ≤ m → (run m rest stack).isSome = true := by
                intro m hm2
                exact ih m (by omega)
              cases s with
              | object =>
                obtain ⟨hact, -⟩ := zeroRule_object r hm _ hp
                rw [hact, applyAct_push1, List.drop_zero, hf3]
                exact run_after_zw _ c rest' .field_name (.object :: t)
                  (by
                    have := (step_ok .object t r 0 _ hg hf).1
                    rwa [hact, applyAct_push1] at this)
                  min1_field_name ihle hble
              | local_name =>
                obtain ⟨hact, -⟩ := zeroRule_local_name r hm _ hp
                cases t with
                | nil => exact absurd rfl (good_tail_ne _ [] hg (by decide))
                | cons b t' =>
                  rw [hact, applyAct_pop1push, List.drop_zero, hf3]
                  exact run_after_zw _ c rest' .local_value (b :: t')
                    (by
                      have := (step_ok .local_name (b :: t') r 0 _ hg hf).1
                      rwa [hact, applyAct_pop1push] at this)
                    min1_local_value ihle hble
              | function_param_default =>
                obtain ⟨hact, -⟩ := zeroRule_fpd r hm _ hp
                cases t with
                | nil => exact absurd rfl (good_tail_ne _ [] hg (by decide))
                | cons b t' =>
                  have hbfp : b = .function_params :=
                    of_decide_eq_true (good_below _ _ _ hg)
                  subst hbfp
                  rw [hact, applyAct_pop1, List.drop_zero, hf3]
                  exact run_after_zw _ c rest' .function_params t'
                    (by
                      have := (step_ok .function_param_default
                        (.function_params :: t') r 0 _ hg hf).1
                      rwa [hact, applyAct_pop1] at this)
                    min1_function_params ihle hble
              | root => exact absurd (min1_root r hm _ _ hp) (by decide)
              | singlestring => exact absurd (min1_singlestring r hm _ _ hp) (by decide)
              | doublestring => exact absurd (min1_doublestring r hm _ _ hp) (by decide)
              | array => exact absurd (min1_array r hm _ _ hp) (by decide)
              | local_value => exact absurd (min1_local_value r hm _ _ hp) (by decide)
              | assert_state => exact absurd (min1_assert_state r hm _ _ hp) (by decide)
              | function_params => exact absurd (min1_function_params r hm _ _ hp) (by decide)
              | function_args => exact absurd (min1_function_args r hm _ _ hp) (by decide)
              | field_name => exact absurd (min1_field_name r hm _ _ hp) (by decide)
              | double_field_name => exact absurd (min1_double_field_name r hm _ _ hp) (by decide)
              | single_field_name => exact absurd (min1_single_field_name r hm _ _ hp) (by decide)
              | field_name_expr => exact absurd (min1_field_name_expr r hm _ _ hp) (by decide)
              | field_separator => exact absurd (min1_field_separator r hm _ _ hp) (by decide)
              | field_value => exact absurd (min1_field_value r hm _ _ hp) (by decide)
              | object_assert => exact absurd (min1_object_assert r hm _ _ hp) (by decide)
              | object_local_name => exact absurd (min1_object_local_name r hm _ _ hp) (by decide)
              | object_local_value => exact absurd (min1_object_local_value r hm _ _ hp) (by decide)
            · apply isSome_map
              have hgood2 := (step_ok s t r k _ hg hf).1
              apply ih f (by omega) _ _ hgood2
              rw [List.length_drop]
              simp only [List.length_cons] at hb ⊢
              omega

theorem run_join : ∀ (fuel : Nat) (rest : List Char) (stack : List StateName)
    (ts : List Tok), run fuel rest stack = some ts → joinTexts ts = rest := by
  intro fuel
  induction fuel with
  | zero => intro rest stack ts h; simp [run] at h
  | succ f ih =>
    intro rest stack ts h
    cases rest with
    | nil =>
      have : ts = [] := by
        have h' : some [] = some ts := h
        cases h'
        rfl
      subst this
      rfl
    | cons c rest' =>
      rw [run_cons_eq] at h
      cases hf : findRule (rules (stack.headD .root)) (c :: rest') with
      | some rk =>
        obtain ⟨r, k⟩ := rk
        rw [hf] at h
        dsimp only at h
        rcases Option.map_eq_some'.mp h with ⟨ts', hts', rfl⟩
        show (c :: rest').take k ++ joinTexts ts' = c :: rest'
        rw [ih _ _ _ hts']
        exact List.take_append_drop k (c :: rest')
      | none =>
        rw [hf] at h
        dsimp only at h
        rcases Option.map_eq_some'.mp h with ⟨ts', hts', rfl⟩
        show c :: joinTexts ts' = c :: rest'
        rw [ih _ _ _ hts']

theorem applyActStrict_eq (a : Act) (st : List StateName) (h : a.pops < st.length) :
    applyActStrict a st = some (applyAct a st) := by
  unfold applyActStrict popStrict applyAct popClamp
  rw [if_pos h]
  have hm : min a.pops (st.length - 1) = a.pops := Nat.min_eq_left (by omega)
  rw [hm]
  rfl

theorem runStrict_cons_eq (fuel : Nat) (c : Char) (rest : List Char)
    (stack : List StateName) :
    runStrict (fuel + 1) (c :: rest) stack =
      match findRule (rules (stack.headD .root)) (c :: rest) with
      | some (r, k) =>
        match applyActStrict r.act stack with
        | some stack2 =>
          (runStrict fuel ((c :: rest).drop k) stack2).map
            (fun ts => Tok.mk r.cat ((c :: rest).take k) :: ts)
        | none => none
      | none =>
        (runStrict fuel rest stack).map (fun ts => Tok.mk .error [c] :: ts) := rfl

theorem runStrict_eq_run : ∀ (fuel : Nat) (rest : List Char) (stack : List StateName),
    goodStack stack = true → runStrict fuel rest stack = run fuel rest stack := by
  intro fuel
  induction fuel with
  | zero => intro rest stack _; rfl
  | succ f ih =>
    intro rest stack hg
    cases rest with
    | nil => rfl
    | cons c rest' =>
      cases stack with
      | nil => simp [goodStack] at hg
      | cons s t =>
        rw [run_cons_eq, runStrict_cons_eq]
        cases hf : findRule (rules ((s :: t).headD .root)) (c :: rest') with
        | none =>
          dsimp only
          rw [ih rest' (s :: t) hg]
        | some rk =>
          obtain ⟨r, k⟩ := rk
          dsimp only
          obtain ⟨hgood2, hlt⟩ := step_ok s t r k _ hg hf
          rw [applyActStrict_eq r.act (s :: t) hlt]
          dsimp only
          rw [ih _ _ hgood2]

theorem headTokenChar_eq (l : List Char) (c : Char) (h : l.head? = some c) :
    headTokenChar l = jsonnet_token_char c := by
  cases l with
  | nil => simp at h
  | cons d l' =>
    simp only [List.head?_cons, Option.some.injEq] at h
    subst h
    rfl

theorem drop_take_len (l : List Char) (k : Nat) :
    l.drop (l.take k).length = l.drop k := by
  rw [List.length_take]
  rcases le_total k l.length with h | h
  · rw [Nat.min_eq_left h]
  · rw [Nat.min_eq_right h, List.drop_eq_nil_of_le (le_refl _),
      List.drop_eq_nil_of_le h]

theorem kwOK_wordGuard (w : List Char) (hw : w ∈ allKw) :
    ∀ rest k, matchWordGuard w rest = some k →
      KwOK ⟨Cat.keyword, rest.take k⟩ rest := by
  intro rest k hp _
  obtain ⟨hk, htake, hbnd⟩ := matchWordGuard_spec _ _ _ hp
  subst hk
  rw [htake]
  exact ⟨hw, Or.inr hbnd⟩

theorem kwOK_assertPlain : ∀ rest k, matchLit ("assert".data) rest = some k →
    KwOK ⟨Cat.keyword, rest.take k⟩ rest := by
  intro rest k hp _
  obtain ⟨hk, htake⟩ := matchLit_spec _ _ _ hp
  subst hk
  rw [htake]
  exact ⟨by decide, Or.inl rfl⟩

theorem kwOK_keywords : ∀ rest k, matchKeywords rest = some k →
    KwOK ⟨Cat.keyword, rest.take k⟩ rest := by
  intro rest k hp _
  obtain ⟨w, hw, hg⟩ := matchWords_spec _ _ _ hp
  obtain ⟨hk, htake, hbnd⟩ := matchWordGuard_spec _ _ _ hg
  subst hk
  rw [htake]
  exact ⟨List.mem_append_left _ hw, Or.inr hbnd⟩

theorem kwOK_functionLP : ∀ rest k, matchFunctionLP rest = some k →
    KwOK ⟨Cat.keyword, rest.take k⟩ rest := by
  intro rest k hp
  unfold matchFunctionLP at hp
  cases hl : matchLit ("function".data) rest with
  | none => rw [hl] at hp; exact absurd hp (by simp)
  | some k' =>
    rw [hl] at hp
    dsimp only at hp
    by_cases hpar : (rest.drop k').head? = some '('
    · rw [if_pos hpar] at hp
      cases hp
      intro _
      obtain ⟨hk, htake⟩ := matchLit_spec _ _ _ hl
      subst hk
      rw [htake]
      refine ⟨by decide, Or.inr ?_⟩
      rw [headTokenChar_eq _ _ hpar]
      decide
    · rw [if_neg hpar] at hp; exact absurd hp (by simp)

theorem kwOK_rvalues : ∀ r ∈ rvalues, ∀ rest k, r.pat rest = some k →
    KwOK ⟨r.cat, rest.take k⟩ rest := by
  intro r hr rest k hp
  simp only [rvalues, comments, List.mem_append, List.mem_cons,
    List.not_mem_nil, or_false] at hr
  rcases hr with (rfl | rfl | rfl) |
    (rfl | rfl | rfl | rfl | rfl | rfl | rfl | rfl | rfl | rfl | rfl | rfl |
     rfl | rfl | rfl | rfl | rfl | rfl) <;>
    first
      | exact kwOK_wordGuard _ (by decide) rest k hp
      | exact kwOK_assertPlain rest k hp
      | exact kwOK_keywords rest k hp
      | exact kwOK_functionLP rest k hp
      | exact fun h => nomatch h

theorem kwOK_step (s : StateName) : ∀ r ∈ rules s, ∀ rest k, r.pat rest = some k →
    KwOK ⟨r.cat, rest.take k⟩ rest := by
  cases s <;> intro r hr rest k hp
  case root => exact kwOK_rvalues r hr rest k hp
  case singlestring =>
    simp only [rules, string_rules, List.mem_cons, List.not_mem_nil, or_false] at hr
    rcases hr with rfl | rfl | rfl <;> exact fun h => nomatch h
  case doublestring =>
    simp only [rules, string_rules, List.mem_cons, List.not_mem_nil, or_false] at hr
    rcases hr with rfl | rfl | rfl <;> exact fun h => nomatch h
  case array =>
    simp only [rules, List.mem_append, List.mem_cons, List.not_mem_nil, or_false] at hr
    rcases hr with (rfl | rfl) | hr
    · exact fun h => nomatch h
    · exact fun h => nomatch h
    · exact kwOK_rvalues r hr rest k hp
  case local_name =>
    simp only [rules, List.mem_cons, List.not_mem_nil, or_false] at hr
    rcases hr with rfl | rfl | rfl | rfl <;> exact fun h => nomatch h
  case local_value =>
    simp only [rules, List.mem_append, List.mem_cons, List.not_mem_nil, or_false] at hr
    rcases hr with (rfl | rfl) | hr
    · exact fun h => nomatch h
    · exact fun h => nomatch h
    · exact kwOK_rvalues r hr rest k hp
  case assert_state =>
    simp only [rules, List.mem_append, List.mem_cons, List.not_mem_nil, or_false] at hr
    rcases hr with (rfl | rfl) | hr
    · exact fun h => nomatch h
    · exact fun h => nomatch h
    · exact kwOK_rvalues r hr rest k hp
  case function_params =>
    simp only [rules, List.mem_cons, List.not_mem_nil, or_false] at hr
    rcases hr with rfl | rfl | rfl | rfl | rfl | rfl <;> exact fun h => nomatch h
  case function_args =>
    simp only [rules, List.mem_append, List.mem_cons, List.not_mem_nil, or_false] at hr
    rcases hr with (rfl | rfl | rfl | rfl) | hr
    · exact fun h => nomatch h
    · exact fun h => nomatch h
    · exact fun h => nomatch h
    · exact fun h => nomatch h
    · exact kwOK_rvalues r hr rest k hp
  case object =>
    simp only [rules, comments, List.mem_append, List.mem_cons,
      List.not_mem_nil, or_false] at hr
    rcases hr with (rfl | rfl | rfl | rfl | rfl | rfl | rfl | rfl) | (rfl | rfl | rfl) <;>
      first
        | exact kwOK_wordGuard _ (by decide) rest k hp
        | exact fun h => nomatch h
  case field_name =>
    simp only [rules, List.mem_cons, List.not_mem_nil, or_false] at hr
    rcases hr with rfl | rfl <;> exact fun h => nomatch h
  case double_field_name =>
    simp only [rules, quoted_field_name, List.mem_cons, List.not_mem_nil, or_false] at hr
    rcases hr with rfl
    exact fun h => nomatch h
  case single_field_name =>
    simp only [rules, quoted_field_name, List.mem_cons, List.not_mem_nil, or_false] at hr
    rcases hr with rfl
    exact fun h => nomatch h
  case field_name_expr =>
    simp only [rules, List.mem_append, List.mem_cons, List.not_mem_nil, or_false] at hr
    rcases hr with rfl | hr
    · exact fun h => nomatch h
    · exact kwOK_rvalues r hr rest k hp
  case function_param_default =>
    simp only [rules, List.mem_append, List.mem_cons, List.not_mem_nil, or_false] at hr
    rcases hr with rfl | hr
    · exact fun h => nomatch h
    · exact kwOK_rvalues r hr rest k hp
  case field_separator =>
    simp only [rules, comments, List.mem_append, List.mem_cons,
      List.not_mem_nil, or_false] at hr
    rcases hr with (rfl | rfl) | (rfl | rfl | rfl) <;> exact fun h => nomatch h
  case field_value =>
    simp only [rules, List.mem_append, List.mem_cons, List.not_mem_nil, or_false] at hr
    rcases hr with (rfl | rfl) | hr
    · exact fun h => nomatch h
    · exact fun h => nomatch h
    · exact kwOK_rvalues r hr rest k hp
  case object_assert =>
    simp only [rules, List.mem_append, List.mem_cons, List.not_mem_nil, or_false] at hr
    rcases hr with (rfl | rfl) | hr
    · exact fun h => nomatch h
    · exact fun h => nomatch h
    · exact kwOK_rvalues r hr rest k hp
  case object_local_name =>
    simp only [rules, List.mem_cons, List.not_mem_nil, or_false] at hr
    rcases hr with rfl | rfl <;> exact fun h => nomatch h
  case object_local_value =>
    simp only [rules, List.mem_append, List.mem_cons, List.not_mem_nil, or_false] at hr
    rcases hr with (rfl | rfl | rfl) | hr
    · exact fun h => nomatch h
    · exact fun h => nomatch h
    · exact fun h => nomatch h
    · exact kwOK_rvalues r hr rest k hp

theorem run_tokensOK : ∀ (fuel : Nat) (rest : List Char) (stack : List StateName)
    (ts : List Tok), run fuel rest stack = some ts → TokensOK rest ts := by
  intro fuel
  induction fuel with
  | zero => intro rest stack ts h; simp [run] at h
  | succ f ih =>
    intro rest stack ts h
    cases rest with
    | nil =>
      have h' : some [] = some ts := h
      cases h'
      trivial
    | cons c rest' =>
      rw [run_cons_eq] at h
      cases hf : findRule (rules (stack.headD .root)) (c :: rest') with
      | some rk =>
        obtain ⟨r, k⟩ := rk
        rw [hf] at h
        dsimp only at h
        rcases Option.map_eq_some'.mp h with ⟨ts', hts', rfl⟩
        obtain ⟨hm, hp⟩ := findRule_mem _ _ _ _ hf
        refine ⟨kwOK_step _ r hm _ k hp, ?_⟩
        show TokensOK ((c :: rest').drop ((c :: rest').take k).length) ts'
        rw [drop_take_len]
        exact ih _ _ _ hts'
      | none =>
        rw [hf] at h
        dsimp only at h
        rcases Option.map_eq_some'.mp h with ⟨ts', hts', rfl⟩
        refine ⟨?_, ?_⟩
        · intro hc
          simp at hc
        · exact ih _ _ _ hts'

/-- Claim C1: for every input string, concatenating the text spans of the
tokens emitted by `tokenize`, in emission order, reproduces the input exactly
(no gaps, no overlaps, no reordering). -/
theorem claim1_coverage : ∀ src : List Char, joinTexts (tokenize src) = src := by
  intro src
  have ht := run_isSome (fuelFor src) src [.root] rfl (Nat.le_refl _)
  unfold tokenize rawTokenize
  cases hr : run (fuelFor src) src [.root] with
  | none => rw [hr] at ht; simp at ht
  | some ts => exact run_join _ _ _ _ hr

/-- Claim C2: for every input (including the empty string and malformed
inputs), the scanner terminates with a token list and never fails: the engine
with the canonical fuel always returns `some`.  On the worst-case example
input (an unterminated quoted field name) the output ends in an Error
token. -/
theorem claim2_totality :
    (∀ src : List Char, ∃ ts : List Tok, rawTokenize src = some ts) ∧
      tokenize c2worst =
        [⟨.punctuation, ['{']⟩, ⟨.nameVariable, ['"']⟩, ⟨.error, ['a']⟩] := by
  refine ⟨?_, by decide⟩
  intro src
  exact Option.isSome_iff_exists.mp
    (run_isSome (fuelFor src) src [.root] rfl (Nat.le_refl _))

/-- Claim C3 (counterexample): on `{a: 1, b:: 2}` the scanner does not emit
exactly the twelve tokens the claim lists; two zero-width Name.Variable
tokens are also emitted. -/
theorem claim3_counterexample : tokenize c3input ≠ c3claimed := by decide

/-- Claim C3 (amended): `{a: 1, b:: 2}` tokenizes into the claimed sequence
with a zero-width Name.Variable token inserted before each field name; the
separator match pops the two field states and pushes `field_value`, the `,`
rule of `field_value` pops one state, and the `}` rule of `field_value` pops
two (the field value state and the object state together). -/
theorem claim3_amended :
    tokenize c3input = c3actual ∧
    (rules .field_separator)[1]?.map Rule.act = some ⟨2, [.field_value]⟩ ∧
    (rules .field_value)[0]?.map Rule.act = some pop1 ∧
    (rules .field_value)[1]?.map Rule.act = some ⟨2, []⟩ :=
  ⟨by decide, rfl, rfl, rfl⟩

/-- Claim C4 (counterexample): the claim's keyword-boundary property fails on
input `asserted`: the unguarded `assert` rule emits a Keyword token `assert`
immediately followed by the identifier character `e`. -/
theorem claim4_counterexample :
    specKeywordClaim c4input = false ∧
    tokenize c4input = [⟨.keyword, "assert".data⟩, ⟨.nameVariable, ['e', 'd']⟩] :=
  ⟨by decide, by decide⟩

/-- Claim C4 (amended): every Keyword token's text is one of the reserved
words (the keyword list plus `local` and `function`), and every Keyword token
except those of the unguarded `assert` rule is not immediately followed by an
identifier character; `fortunate` is a plain Name.Variable token and `for`
at end of input is a Keyword. -/
theorem claim4_amended :
    (∀ src : List Char, TokensOK src (tokenize src)) ∧
    tokenize c4fortunate = [⟨.nameVariable, c4fortunate⟩] ∧
    tokenize c4for = [⟨.keyword, c4for⟩] := by
  refine ⟨?_, by decide, by decide⟩
  intro src
  unfold tokenize rawTokenize
  cases hr : run (fuelFor src) src [.root] with
  | none => trivial
  | some ts => exact run_tokensOK _ _ _ _ hr

/-- Claim C5: `/** doc */` is a single documentation token (the source's
`String.Doc`), `/* plain */` a single plain Comment token, and `// line`
with its trailing newline a single line-comment token. -/
theorem claim5_comments :
    tokenize c5doc = [⟨.stringDoc, c5doc⟩] ∧
    tokenize c5plain = [⟨.comment, c5plain⟩] ∧
    tokenize c5line = [⟨.commentSingle, c5line⟩] :=
  ⟨by decide, by decide, by decide⟩

/-- Claim C6 (code bug): the number rule's unescaped `.` accepts any
non-newline character, so `1x2` is lexed as a single Number token although
it does not have the claimed shape (optional sign, digits, optional literal
dot plus one digit). -/
theorem claim6_number_bug :
    tokenize c6input = [⟨.numberFloat, c6input⟩] ∧
    specNumberShape c6input = false :=
  ⟨by decide, by decide⟩

/-- Claim C7: whenever no rule of the current top-of-stack state matches, the
scanner emits exactly one one-character Error token, advances by one and
continues; in particular a stray `:` at root is an Error token (the operator
class deliberately omits `:`), not an Operator. -/
theorem claim7_error_fallback :
    (∀ (fuel : Nat) (c : Char) (rest : List Char) (stack : List StateName),
        noMatch (stack.headD .root) (c :: rest) = true →
        run (fuel + 1) (c :: rest) stack =
          (run fuel rest stack).map (fun ts => Tok.mk .error [c] :: ts)) ∧
    tokenize c7colon = [⟨.error, [':']⟩] ∧
    matchCharSet opChars c7colon = none := by
  refine ⟨?_, by decide, by decide⟩
  intro fuel c rest stack hn
  rw [run_cons_eq]
  unfold noMatch at hn
  cases hf : findRule (rules (stack.headD .root)) (c :: rest) with
  | none => rfl
  | some rk => rw [hf] at hn; simp at hn

/-- Witness for claim C7's fallback equation at the concrete input `:` in the
root state. -/
theorem claim7_witness :
    noMatch (List.headD [StateName.root] .root) (':' :: []) = true ∧
    run 2 (':' :: []) [StateName.root] =
      (run 1 [] [StateName.root]).map (fun ts => Tok.mk .error [':'] :: ts) :=
  ⟨by decide, claim7_error_fallback.1 1 ':' [] [.root] (by decide)⟩

/-- Claim C8: `foo(1)` lexes `foo` as Name.Function followed by Punctuation
`(`, with `1` read as a Number inside the pushed `function_args` state and
`)` popping back; `std.foo(` lexes `std.foo` as a single Name.Builtin
token. -/
theorem claim8_functions :
    tokenize c8call = [⟨.nameFunction, ['f', 'o', 'o']⟩, ⟨.punctuation, ['(']⟩,
      ⟨.numberFloat, ['1']⟩, ⟨.punctuation, [')']⟩] ∧
    tokenize c8std = [⟨.nameBuiltin, ['s', 't', 'd', '.', 'f', 'o', 'o']⟩,
      ⟨.punctuation, ['(']⟩] :=
  ⟨by decide, by decide⟩

/-- Claim C9: on every input, running the scanner with strict pops (failing
on any pop that reaches or passes the bottom of the stack) gives the same
result as the clamped engine, and that result is defined: no pop executed
from the initial stack `[root]` ever pops past the bottom entry. -/
theorem claim9_no_underflow :
    ∀ src : List Char,
      runStrict (fuelFor src) src [.root] = run (fuelFor src) src [.root] ∧
      (run (fuelFor src) src [.root]).isSome = true := by
  intro src
  exact ⟨runStrict_eq_run _ _ _ rfl, run_isSome _ _ _ rfl (Nat.le_refl _)⟩

/-- Claim C10: the three lookahead matchers only ever match with width zero,
and on `{a: 1}`, `local=` and `function(=,` the scanner emits zero-length
Name.Variable or Whitespace tokens that contribute nothing to the
concatenation of spans. -/
theorem claim10_zero_width :
    (∀ s : List Char, matchLookaheadToken s = none ∨ matchLookaheadToken s = some 0) ∧
    (∀ s : List Char, matchLookaheadEq s = none ∨ matchLookaheadEq s = some 0) ∧
    (∀ s : List Char, matchLookaheadCommaRP s = none ∨ matchLookaheadCommaRP s = some 0) ∧
    tokenize c10obj = [⟨.punctuation, ['{']⟩, ⟨.nameVariable, []⟩,
      ⟨.nameVariable, ['a']⟩, ⟨.punctuation, [':']⟩, ⟨.whitespace, [' ']⟩,
      ⟨.numberFloat, ['1']⟩, ⟨.punctuation, ['}']⟩] ∧
    tokenize c10local = [⟨.keyword, "local".data⟩, ⟨.whitespace, []⟩,
      ⟨.operator, ['=']⟩] ∧
    tokenize c10fpd = [⟨.keyword, "function".data⟩, ⟨.punctuation, ['(']⟩,
      ⟨.operator, ['=']⟩, ⟨.whitespace, []⟩, ⟨.punctuation, [',']⟩] := by
  refine ⟨?_, ?_, ?_, by decide, by decide, by decide⟩
  · intro s
    unfold matchLookaheadToken
    split
    · split
      · exact Or.inr rfl
      · exact Or.inl rfl
    · exact Or.inl rfl
  · intro s
    unfold matchLookaheadEq
    split
    · exact Or.inr rfl
    · exact Or.inl rfl
  · intro s
    unfold matchLookaheadCommaRP
    split
    · split
      · exact Or.inr rfl
      · exact Or.inl rfl
    · exact Or.inl rfl
